import Mathlib

/-!
Verification development for the AINovel repository.

Part 1 embeds the glossary substitution engine (`mapTerms` / `restoreTerms`).
The engine is described in the specification (section 4.1) but its code is not
among the source files available here, so the definitions in this part are
modelled from the spec.  Texts are represented as `List Char`; glossaries as
association lists of (source term, target term) pairs; marker tokens are
guillemet-wrapped decimal indices.

Part 2 embeds the Gemini two-pass translation pipeline of `src/App.js`
(`AI_TRANSLATOR.translate` and `doTranslate`), with the network and the
JavaScript `JSON.parse` primitive supplied as an explicit environment.
-/

/-- Fuel-driven worker for literal, non-overlapping, left-to-right
replacement of every occurrence of `pat` by `rep` in `s`.  The fuel form
keeps the recursion structural so that concrete evaluation reduces in the
kernel; `replaceAll` instantiates the fuel at `s.length`, which is always
sufficient. -/
def replaceAllF : Nat → List Char → List Char → List Char → List Char
  | _, _, _, [] => []
  | 0, _, _, s => s
  | fuel + 1, pat, rep, c :: rest =>
    if pat.isEmpty then c :: rest
    else if pat.isPrefixOf (c :: rest) then
      rep ++ replaceAllF fuel pat rep (List.drop pat.length (c :: rest))
    else c :: replaceAllF fuel pat rep rest

/-- Modelled from the spec: replace every literal, non-overlapping occurrence
of `pat` in `s` by `rep`, scanning left to right (spec 4.1: "replace every
literal, non-overlapping occurrence").  The engine never calls this with an
empty `pat` (empty source terms are rejected before mapping), and on an empty
pattern it leaves the text unchanged. -/
def replaceAll (pat rep s : List Char) : List Char :=
  replaceAllF s.length pat rep s

theorem replaceAllF_nil (f : Nat) (pat rep : List Char) :
    replaceAllF f pat rep [] = [] := by
  cases f <;> rfl

theorem length_drop_lt_of_isPrefixOf {pat : List Char} {c : Char} {rest : List Char}
    (hne : pat.isEmpty = false) :
    (List.drop pat.length (c :: rest)).length ≤ rest.length := by
  have hp : 1 ≤ pat.length := by
    cases pat with
    | nil => simp [List.isEmpty] at hne
    | cons a l => simp
  simp only [List.length_drop, List.length_cons]
  omega

theorem replaceAllF_stable :
    ∀ f₁ f₂ pat rep (s : List Char), s.length ≤ f₁ → s.length ≤ f₂ →
      replaceAllF f₁ pat rep s = replaceAllF f₂ pat rep s := by
  intro f₁
  induction f₁ with
  | zero =>
    intro f₂ pat rep s h1 _
    have : s = [] := by
      cases s with
      | nil => rfl
      | cons c t => simp at h1
    subst this
    simp [replaceAllF_nil]
  | succ g ih =>
    intro f₂ pat rep s h1 h2
    cases s with
    | nil => simp [replaceAllF_nil]
    | cons c rest =>
      cases f₂ with
      | zero => simp at h2
      | succ g₂ =>
        simp only [replaceAllF]
        by_cases he : pat.isEmpty
        · simp [he]
        · simp only [he, if_false, Bool.false_eq_true]
          by_cases hpre : pat.isPrefixOf (c :: rest)
          · simp only [hpre, if_true]
            have hlen := @length_drop_lt_of_isPrefixOf pat c rest (by simpa using he)
            have hg : rest.length ≤ g := by simpa using h1
            have hg₂ : rest.length ≤ g₂ := by simpa using h2
            rw [ih g₂ pat rep _ (le_trans hlen hg) (le_trans hlen hg₂)]
          · simp only [hpre, Bool.false_eq_true, if_false]
            have hg : rest.length ≤ g := by simpa using h1
            have hg₂ : rest.length ≤ g₂ := by simpa using h2
            rw [ih g₂ pat rep rest hg hg₂]

theorem replaceAll_nil (pat rep : List Char) : replaceAll pat rep [] = [] := rfl

theorem replaceAll_cons_pos {pat : List Char} (rep : List Char) {c : Char}
    {rest : List Char} (hne : pat.isEmpty = false)
    (hpre : pat.isPrefixOf (c :: rest) = true) :
    replaceAll pat rep (c :: rest) =
      rep ++ replaceAll pat rep (List.drop pat.length (c :: rest)) := by
  show replaceAllF (rest.length + 1) pat rep (c :: rest) = _
  simp only [replaceAllF, hne, hpre, if_true, if_false, Bool.false_eq_true]
  congr 1
  exact replaceAllF_stable _ _ pat rep _
    (le_trans (length_drop_lt_of_isPrefixOf hne) (Nat.le_refl _)) (Nat.le_refl _)

theorem replaceAll_cons_neg {pat : List Char} (rep : List Char) {c : Char}
    {rest : List Char} (hne : pat.isEmpty = false)
    (hpre : pat.isPrefixOf (c :: rest) = false) :
    replaceAll pat rep (c :: rest) = c :: replaceAll pat rep rest := by
  show replaceAllF (rest.length + 1) pat rep (c :: rest) = _
  simp only [replaceAllF, hne, hpre, if_false, Bool.false_eq_true]
  rfl

/-- Boolean prefix facts: `l.isPrefixOf s` holds exactly when `s` extends `l`. -/
theorem isPrefixOf_ex : ∀ (l s : List Char), l.isPrefixOf s = true ↔ ∃ t, s = l ++ t := by
  intro l
  induction l with
  | nil => intro s; simp [List.isPrefixOf]
  | cons a as ih =>
    intro s
    cases s with
    | nil => simp [List.isPrefixOf]
    | cons b bs =>
      simp only [List.isPrefixOf, Bool.and_eq_true, beq_iff_eq, ih bs, List.cons_append]
      constructor
      · rintro ⟨rfl, t, rfl⟩; exact ⟨t, rfl⟩
      · rintro ⟨t, h⟩
        injection h with h1 h2
        exact ⟨h1.symm, t, h2⟩

theorem isPrefixOf_append_self : ∀ (l y : List Char), l.isPrefixOf (l ++ y) = true := by
  intro l y
  rw [isPrefixOf_ex]
  exact ⟨y, rfl⟩

/-- `occursIn pat s` states that `pat` occurs as a contiguous substring of `s`. -/
def occursIn (pat s : List Char) : Prop := ∃ a b, s = a ++ pat ++ b

/-- Executable occurrence test used to decide `occursIn`. -/
def containsSub : List Char → List Char → Bool
  | [], pat => pat.isEmpty
  | c :: t, pat => pat.isPrefixOf (c :: t) || containsSub t pat

theorem occursIn_iff_containsSub : ∀ (s pat : List Char),
    occursIn pat s ↔ containsSub s pat = true := by
  intro s
  induction s with
  | nil =>
    intro pat
    simp only [containsSub, occursIn, List.isEmpty_iff]
    constructor
    · rintro ⟨a, b, h⟩
      rcases List.append_eq_nil.mp (List.append_eq_nil.mp h.symm).1 with ⟨_, h2⟩
      exact h2
    · rintro rfl; exact ⟨[], [], rfl⟩
  | cons c t ih =>
    intro pat
    simp only [containsSub, Bool.or_eq_true, isPrefixOf_ex, ← ih]
    constructor
    · rintro ⟨a, b, h⟩
      cases a with
      | nil => exact Or.inl ⟨b, by simpa using h⟩
      | cons a0 at' =>
        right
        refine ⟨at', b, ?_⟩
        injection h with h1 h2
    · rintro (⟨u, hu⟩ | ⟨a, b, h⟩)
      · exact ⟨[], u, by simpa using hu⟩
      · exact ⟨c :: a, b, by simp [h]⟩

instance (pat s : List Char) : Decidable (occursIn pat s) :=
  decidable_of_iff (containsSub s pat = true) (occursIn_iff_containsSub s pat).symm

theorem occursIn_of_cons {pat : List Char} {c : Char} {t : List Char}
    (h : occursIn pat t) : occursIn pat (c :: t) := by
  rcases h with ⟨a, b, rfl⟩
  exact ⟨c :: a, b, rfl⟩

theorem occursIn_append_left {pat w : List Char} (y : List Char)
    (h : occursIn pat w) : occursIn pat (y ++ w) := by
  rcases h with ⟨a, b, rfl⟩
  exact ⟨y ++ a, b, by simp⟩

/-- If the pattern never occurs in the text, replacement leaves it unchanged
(the heart of the spec property "text passes through unchanged when no
glossary term matches"). -/
theorem replaceAll_of_not_occursIn {pat : List Char} (rep : List Char) :
    ∀ {s : List Char}, ¬ occursIn pat s → replaceAll pat rep s = s := by
  intro s
  induction s with
  | nil => intro _; exact replaceAll_nil pat rep
  | cons c rest ih =>
    intro h
    have hne : pat.isEmpty = false := by
      cases pat with
      | nil => exact absurd ⟨[], c :: rest, rfl⟩ h
      | cons _ _ => rfl
    have hpre : pat.isPrefixOf (c :: rest) = false := by
      by_contra hcon
      have : pat.isPrefixOf (c :: rest) = true := by
        cases hb : pat.isPrefixOf (c :: rest) with
        | false => exact absurd hb hcon
        | true => rfl
      rcases (isPrefixOf_ex pat (c :: rest)).mp this with ⟨t, ht⟩
      exact h ⟨[], t, by simpa using ht⟩
    rw [replaceAll_cons_neg rep hne hpre, ih (fun hocc => h (occursIn_of_cons hocc))]

/-- Decimal digit list of a natural number (most significant digit first),
computed with structural fuel so that it reduces in the kernel. -/
def natDigitsAux : Nat → Nat → List Char
  | 0, _ => []
  | _ + 1, 0 => []
  | fuel + 1, n + 1 =>
    natDigitsAux fuel ((n + 1) / 10) ++ [Nat.digitChar ((n + 1) % 10)]

/-- Decimal representation of a natural number as characters. -/
def natDigits (n : Nat) : List Char :=
  if n = 0 then ['0'] else natDigitsAux n n

/-- Numeric value of a digit character. -/
def digitVal (c : Char) : Nat := c.toNat - 48

/-- Numeric value of a most-significant-first digit list. -/
def natVal (l : List Char) : Nat := l.foldl (fun a c => 10 * a + digitVal c) 0

theorem natVal_append_digit (l : List Char) (c : Char) :
    natVal (l ++ [c]) = 10 * natVal l + digitVal c := by
  simp [natVal, List.foldl_append]

theorem digitVal_digitChar : ∀ d : Nat, d < 10 → digitVal (Nat.digitChar d) = d := by
  decide

theorem natVal_natDigitsAux : ∀ fuel n : Nat, n ≤ fuel → natVal (natDigitsAux fuel n) = n := by
  intro fuel
  induction fuel with
  | zero =>
    intro n hn
    have : n = 0 := Nat.le_zero.mp hn
    subst this
    rfl
  | succ f ih =>
    intro n hn
    cases n with
    | zero => rfl
    | succ m =>
      have hdiv : (m + 1) / 10 ≤ f := by
        have := Nat.div_lt_self (Nat.succ_pos m) (by norm_num : 1 < 10)
        omega
      have hmod : (m + 1) % 10 < 10 := Nat.mod_lt _ (by norm_num)
      simp only [natDigitsAux, natVal_append_digit, ih _ hdiv, digitVal_digitChar _ hmod]
      omega

theorem natVal_natDigits (n : Nat) : natVal (natDigits n) = n := by
  by_cases h : n = 0
  · subst h; rfl
  · simp only [natDigits, h, if_false]
    exact natVal_natDigitsAux n n (Nat.le_refl n)

theorem natDigits_injective {a b : Nat} (h : natDigits a = natDigits b) : a = b := by
  have := congrArg natVal h
  rwa [natVal_natDigits, natVal_natDigits] at this

theorem natDigitsAux_digit_range :
    ∀ fuel n : Nat, ∀ c ∈ natDigitsAux fuel n, ∃ d, d < 10 ∧ c = Nat.digitChar d := by
  intro fuel
  induction fuel with
  | zero => intro n c hc; simp [natDigitsAux] at hc
  | succ f ih =>
    intro n c hc
    cases n with
    | zero => simp [natDigitsAux] at hc
    | succ m =>
      simp only [natDigitsAux, List.mem_append, List.mem_singleton] at hc
      rcases hc with hc | rfl
      · exact ih _ c hc
      · exact ⟨(m + 1) % 10, Nat.mod_lt _ (by norm_num), rfl⟩

/-- A string is guillemet-free when it contains neither marker delimiter. -/
def guillFree (s : List Char) : Prop := '«' ∉ s ∧ '»' ∉ s

instance (s : List Char) : Decidable (guillFree s) :=
  inferInstanceAs (Decidable ('«' ∉ s ∧ '»' ∉ s))

theorem digitChar_ne_guillemets : ∀ d : Nat, d < 10 →
    Nat.digitChar d ≠ '«' ∧ Nat.digitChar d ≠ '»' := by
  decide

theorem natDigits_guillFree (n : Nat) : guillFree (natDigits n) := by
  by_cases h : n = 0
  · subst h; constructor <;> simp [natDigits]
  · simp only [natDigits, h, if_false]
    constructor
    · intro hc
      rcases natDigitsAux_digit_range n n _ hc with ⟨d, hd, hcd⟩
      exact (digitChar_ne_guillemets d hd).1 hcd.symm
    · intro hc
      rcases natDigitsAux_digit_range n n _ hc with ⟨d, hd, hcd⟩
      exact (digitChar_ne_guillemets d hd).2 hcd.symm

/-- Modelled from the spec: the marker token for index `i` is the decimal
index wrapped in guillemets, "a syntax not found in source text"
(spec section 3, marker token invariant). -/
def token (i : Nat) : List Char := '«' :: (natDigits i ++ ['»'])

theorem token_injective {i j : Nat} (h : token i = token j) : i = j := by
  have h2 : natDigits i ++ ['»'] = natDigits j ++ ['»'] := by
    simpa [token] using h
  exact natDigits_injective (List.append_inj' h2 rfl).1

/-- Modelled from the spec: a substitution marker records the placeholder
token together with the glossary pair it stands for
(spec section 3, `SubstitutionMarker`). -/
structure Marker where
  token : List Char
  sourceTerm : List Char
  targetTerm : List Char
deriving DecidableEq, Repr

/-- A glossary is an ordered list of (source term, target term) pairs. -/
abbrev Glossary := List (List Char × List Char)

/-- Glossary entries kept for mapping: both terms non-empty
(spec section 3: "empty source or target terms are rejected before mapping"). -/
def keptEntries (g : Glossary) : Glossary :=
  g.filter (fun p => !p.1.isEmpty && !p.2.isEmpty)

/-- Modelled from the spec: the worker behind `mapTerms`; walks the kept
glossary entries in order, replacing every occurrence of the current source
term by a fresh token, and records one marker per entry whether or not the
term occurred (spec 4.1: "a marker is recorded even for terms that do not
occur"). -/
def mapTermsGo : Glossary → Nat → List Char → List Char × List Marker
  | [], _, text => (text, [])
  | (src, tgt) :: rest, i, text =>
    let out := mapTermsGo rest (i + 1) (replaceAll src (token i) text)
    (out.1, ⟨token i, src, tgt⟩ :: out.2)

/-- Modelled from the spec: `mapTerms(text, glossary) -> (mappedText, markers)`
(spec 4.1).  Entries with an empty source or target term are rejected before
mapping; the remaining entries are processed in glossary order with
freshly allocated guillemet-wrapped index tokens. -/
def mapTerms (text : List Char) (g : Glossary) : List Char × List Marker :=
  mapTermsGo (keptEntries g) 0 text

/-- Modelled from the spec: `restoreTerms(text, markers) -> restoredText`
(spec 4.1): for each marker, in the same order, replace every literal
occurrence of its token by its target term. -/
def restoreTerms (text : List Char) : List Marker → List Char
  | [] => text
  | m :: rest => restoreTerms (replaceAll m.token m.targetTerm text) rest

/-- The marker list produced for a (kept) entry list starting at index `i`:
one marker per entry, with consecutive index tokens. -/
def markersOf : Glossary → Nat → List Marker
  | [], _ => []
  | (src, tgt) :: rest, i => ⟨token i, src, tgt⟩ :: markersOf rest (i + 1)

theorem mapTermsGo_snd : ∀ (entries : Glossary) (i : Nat) (text : List Char),
    (mapTermsGo entries i text).2 = markersOf entries i := by
  intro entries
  induction entries with
  | nil => intro i text; rfl
  | cons p rest ih =>
    intro i text
    cases p with
    | mk src tgt => simp [mapTermsGo, markersOf, ih]

theorem markersOf_token_ge : ∀ (entries : Glossary) (i : Nat) (m : Marker),
    m ∈ markersOf entries i → ∃ j, i ≤ j ∧ m.token = token j := by
  intro entries
  induction entries with
  | nil => intro i m hm; simp [markersOf] at hm
  | cons p rest ih =>
    intro i m hm
    cases p with
    | mk src tgt =>
      simp only [markersOf, List.mem_cons] at hm
      rcases hm with rfl | hm
      · exact ⟨i, Nat.le_refl i, rfl⟩
      · rcases ih (i + 1) m hm with ⟨j, hij, hj⟩
        exact ⟨j, by omega, hj⟩

theorem markersOf_pairwise_token : ∀ (entries : Glossary) (i : Nat),
    (markersOf entries i).Pairwise (fun a b => a.token ≠ b.token) := by
  intro entries
  induction entries with
  | nil => intro i; simp [markersOf]
  | cons p rest ih =>
    intro i
    cases p with
    | mk src tgt =>
      simp only [markersOf]
      refine List.Pairwise.cons ?_ (ih (i + 1))
      intro m hm heq
      rcases markersOf_token_ge rest (i + 1) m hm with ⟨j, hij, hj⟩
      have htok : token i = token j := by rw [← hj, ← heq]
      have : i = j := token_injective htok
      omega

theorem markersOf_source_target : ∀ (entries : Glossary) (i : Nat) (m : Marker),
    m ∈ markersOf entries i → (m.sourceTerm, m.targetTerm) ∈ entries := by
  intro entries
  induction entries with
  | nil => intro i m hm; simp [markersOf] at hm
  | cons p rest ih =>
    intro i m hm
    cases p with
    | mk src tgt =>
      simp only [markersOf, List.mem_cons] at hm
      rcases hm with rfl | hm
      · exact List.mem_cons_self _ _
      · exact List.mem_cons_of_mem _ (ih (i + 1) m hm)

theorem keptEntries_subset {g : Glossary} {p : List Char × List Char}
    (hp : p ∈ keptEntries g) : p ∈ g :=
  List.mem_of_mem_filter hp

/-- If no kept source term occurs in the text, the mapping worker leaves the
text unchanged. -/
theorem mapTermsGo_fst_of_no_occ : ∀ (entries : Glossary) (i : Nat) (text : List Char),
    (∀ p ∈ entries, ¬ occursIn p.1 text) →
    (mapTermsGo entries i text).1 = text := by
  intro entries
  induction entries with
  | nil => intro i text _; rfl
  | cons p rest ih =>
    intro i text h
    cases p with
    | mk src tgt =>
      have hsrc : ¬ occursIn src text := h (src, tgt) (List.mem_cons_self _ _)
      simp only [mapTermsGo]
      rw [replaceAll_of_not_occursIn _ hsrc]
      exact ih (i + 1) text (fun q hq => h q (List.mem_cons_of_mem _ hq))

theorem isPrefixOf_cons_head {a b : Char} {l m : List Char}
    (h : (a :: l).isPrefixOf (b :: m) = true) : a = b := by
  simp only [List.isPrefixOf, Bool.and_eq_true, beq_iff_eq] at h
  exact h.1

/-- A provider output is modelled as a sequence of pieces: literal segments
and marker tokens.  `render` is the output as the provider produced it;
`renderRestored` is the same sequence with every marker token replaced by
its target term. -/
inductive Piece where
  | seg : List Char → Piece
  | mark : Marker → Piece
deriving DecidableEq, Repr

def pieceOut : Piece → List Char
  | .seg s => s
  | .mark m => m.token

def pieceRestored : Piece → List Char
  | .seg s => s
  | .mark m => m.targetTerm

def render (ps : List Piece) : List Char := (ps.map pieceOut).flatten

def renderRestored (ps : List Piece) : List Char := (ps.map pieceRestored).flatten

theorem render_cons (p : Piece) (ps : List Piece) :
    render (p :: ps) = pieceOut p ++ render ps := by
  simp [render]

theorem renderRestored_cons (p : Piece) (ps : List Piece) :
    renderRestored (p :: ps) = pieceRestored p ++ renderRestored ps := by
  simp [renderRestored]

/-- Replacement with a guillemet-opened pattern passes over a guillemet-free
block unchanged: no occurrence of the pattern can start inside the block. -/
theorem replaceAll_guillFree_append {pd rep : List Char} :
    ∀ (x : List Char), '«' ∉ x → ∀ y,
      replaceAll ('«' :: pd) rep (x ++ y) = x ++ replaceAll ('«' :: pd) rep y := by
  intro x
  induction x with
  | nil => intro _ y; simp
  | cons c t ih =>
    intro hx y
    have hc : c ≠ '«' := by
      intro h
      exact hx (h ▸ List.mem_cons_self c t)
    have hpre : ('«' :: pd).isPrefixOf (c :: (t ++ y)) = false := by
      cases hb : ('«' :: pd).isPrefixOf (c :: (t ++ y)) with
      | false => rfl
      | true => exact absurd (isPrefixOf_cons_head hb).symm hc
    rw [List.cons_append,
      replaceAll_cons_neg rep (show ('«' :: pd).isEmpty = false from rfl) hpre,
      ih (fun hmem => hx (List.mem_cons_of_mem c hmem)) y, List.cons_append]

/-- Two guillemet-free digit blocks closed by the same delimiter can only
line up when they are equal. -/
theorem digits_eq_of_append : ∀ (d d' y t : List Char), '»' ∉ d → '»' ∉ d' →
    d' ++ ('»' :: y) = d ++ ('»' :: t) → d = d' := by
  intro d
  induction d with
  | nil =>
    intro d' y t _ hd' h
    cases d' with
    | nil => rfl
    | cons c dt =>
      rw [List.cons_append, List.nil_append] at h
      injection h with h1 _
      exact absurd (by rw [← h1]; exact List.mem_cons_self c dt) hd'
  | cons c dt ih =>
    intro d' y t hd hd' h
    cases d' with
    | nil =>
      rw [List.nil_append, List.cons_append] at h
      injection h with h1 _
      exact absurd (by rw [h1]; exact List.mem_cons_self c dt) hd
    | cons c' dt' =>
      rw [List.cons_append, List.cons_append] at h
      injection h with h1 h2
      rw [h1, ih dt' y t (fun hm => hd (List.mem_cons_of_mem c hm))
        (fun hm => hd' (List.mem_cons_of_mem c' hm)) h2]

theorem digits_prefix_eq (d d' y : List Char) (hd : '»' ∉ d) (hd' : '»' ∉ d')
    (h : (d ++ ['»']).isPrefixOf ((d' ++ ['»']) ++ y) = true) : d = d' := by
  rcases (isPrefixOf_ex _ _).mp h with ⟨u, hu⟩
  apply digits_eq_of_append d d' y u hd hd'
  simpa [List.append_assoc] using hu

/-- Replacement of one token passes over a different well-formed token
unchanged: distinct digit strings cannot match. -/
theorem replaceAll_token_skip {d d' rep : List Char} (hd : guillFree d)
    (hd' : guillFree d') (hne : d ≠ d') (y : List Char) :
    replaceAll ('«' :: (d ++ ['»'])) rep (('«' :: (d' ++ ['»'])) ++ y)
      = ('«' :: (d' ++ ['»'])) ++ replaceAll ('«' :: (d ++ ['»'])) rep y := by
  have hpre : ('«' :: (d ++ ['»'])).isPrefixOf ('«' :: ((d' ++ ['»']) ++ y)) = false := by
    cases hb : ('«' :: (d ++ ['»'])).isPrefixOf ('«' :: ((d' ++ ['»']) ++ y)) with
    | false => rfl
    | true =>
      have hb' : (d ++ ['»']).isPrefixOf ((d' ++ ['»']) ++ y) = true := by
        simpa only [List.isPrefixOf, beq_self_eq_true, Bool.true_and] using hb
      exact absurd (digits_prefix_eq d d' y hd.2 hd'.2 hb') hne
  have hblock : '«' ∉ d' ++ ['»'] := by
    intro hm
    rcases List.mem_append.mp hm with hm | hm
    · exact hd'.1 hm
    · simp at hm
  rw [List.cons_append,
    replaceAll_cons_neg rep (show ('«' :: (d ++ ['»'])).isEmpty = false from rfl) hpre,
    replaceAll_guillFree_append (d' ++ ['»']) hblock y, List.cons_append]

/-- Replacement consumes an exact occurrence of the pattern at the front. -/
theorem replaceAll_self_append {pat : List Char} (rep y : List Char)
    (hne : pat.isEmpty = false) :
    replaceAll pat rep (pat ++ y) = rep ++ replaceAll pat rep y := by
  cases pat with
  | nil => simp [List.isEmpty] at hne
  | cons p pt =>
    rw [List.cons_append,
      replaceAll_cons_pos rep hne
        (by rw [← List.cons_append]; exact isPrefixOf_append_self (p :: pt) y)]
    congr 1
    have hdrop : List.drop (p :: pt).length (p :: (pt ++ y)) = y := by
      have h0 := List.drop_left (p :: pt) y
      rwa [List.cons_append] at h0
    rw [hdrop]

/-- Effect of one replacement pass on a piece: the matching marker becomes a
literal segment holding the replacement; everything else is untouched. -/
def substPiece (pat rep : List Char) : Piece → Piece
  | .seg s => .seg s
  | .mark m => if m.token = pat then .seg rep else .mark m

/-- One `replaceAll` pass with a well-formed token pattern rewrites exactly
the matching marker pieces of a rendered output and nothing else. -/
theorem replaceAll_render (d rep : List Char) (hd : guillFree d) :
    ∀ ps : List Piece,
      (∀ m : Marker, Piece.mark m ∈ ps → ∃ d', m.token = '«' :: (d' ++ ['»']) ∧ guillFree d') →
      (∀ s, Piece.seg s ∈ ps → guillFree s) →
      replaceAll ('«' :: (d ++ ['»'])) rep (render ps)
        = render (ps.map (substPiece ('«' :: (d ++ ['»'])) rep)) := by
  intro ps
  induction ps with
  | nil => intro _ _; simp [render, replaceAll_nil]
  | cons p rest ih =>
    intro hmark hseg
    have ihr := ih (fun m hm => hmark m (List.mem_cons_of_mem p hm))
      (fun s hs => hseg s (List.mem_cons_of_mem p hs))
    cases p with
    | seg s =>
      have hs : guillFree s := hseg s (List.mem_cons_self _ _)
      rw [render_cons, List.map_cons, render_cons]
      simp only [pieceOut, substPiece]
      rw [replaceAll_guillFree_append s hs.1 (render rest), ihr]
    | mark m =>
      rcases hmark m (List.mem_cons_self _ _) with ⟨d', hm, hd'⟩
      by_cases heq : m.token = '«' :: (d ++ ['»'])
      · rw [render_cons, List.map_cons, render_cons]
        simp only [pieceOut, substPiece, heq, if_pos]
        rw [replaceAll_self_append rep (render rest)
          (show ('«' :: (d ++ ['»'])).isEmpty = false from rfl), ihr]
      · have hdd : d ≠ d' := by
          intro hEq
          exact heq (by rw [hm, hEq])
        rw [render_cons, List.map_cons, render_cons]
        simp only [pieceOut, substPiece, heq, if_neg, ite_false]
        rw [hm, replaceAll_token_skip hd hd' hdd (render rest), ihr]

theorem render_eq_renderRestored_of_no_marks :
    ∀ ps : List Piece, (∀ m : Marker, Piece.mark m ∈ ps → False) →
      render ps = renderRestored ps := by
  intro ps
  induction ps with
  | nil => intro _; rfl
  | cons p rest ih =>
    intro h
    cases p with
    | seg s =>
      rw [render_cons, renderRestored_cons, ih (fun m hm => h m (List.mem_cons_of_mem _ hm))]
      rfl
    | mark m => exact (h m (List.mem_cons_self _ _)).elim

theorem renderRestored_substPiece (m0 : Marker) :
    ∀ ps : List Piece,
      (∀ m : Marker, Piece.mark m ∈ ps → m.token = m0.token → m.targetTerm = m0.targetTerm) →
      renderRestored (ps.map (substPiece m0.token m0.targetTerm)) = renderRestored ps := by
  intro ps
  induction ps with
  | nil => intro _; rfl
  | cons p rest ih =>
    intro h
    rw [List.map_cons, renderRestored_cons, renderRestored_cons,
      ih (fun m hm ht => h m (List.mem_cons_of_mem _ hm) ht)]
    congr 1
    cases p with
    | seg s => rfl
    | mark m =>
      by_cases heq : m.token = m0.token
      · simp only [substPiece, heq, if_pos, pieceRestored]
        exact (h m (List.mem_cons_self _ _) heq).symm
      · simp only [substPiece, heq, if_neg, ite_false]

theorem seg_mem_map_substPiece {pat rep s : List Char} {ps : List Piece}
    (h : Piece.seg s ∈ ps.map (substPiece pat rep)) :
    Piece.seg s ∈ ps ∨ s = rep := by
  rcases List.mem_map.mp h with ⟨p, hp, hfp⟩
  cases p with
  | seg s' =>
    left
    have hss : s' = s := by simpa [substPiece] using hfp
    rwa [hss] at hp
  | mark m =>
    by_cases heq : m.token = pat
    · right
      have : rep = s := by simpa [substPiece, heq] using hfp
      exact this.symm
    · exact absurd hfp (by simp [substPiece, heq])

theorem mark_mem_map_substPiece {pat rep : List Char} {m : Marker} {ps : List Piece}
    (h : Piece.mark m ∈ ps.map (substPiece pat rep)) :
    Piece.mark m ∈ ps ∧ m.token ≠ pat := by
  rcases List.mem_map.mp h with ⟨p, hp, hfp⟩
  cases p with
  | seg s' => exact absurd hfp (by simp [substPiece])
  | mark m' =>
    by_cases heq : m'.token = pat
    · exact absurd hfp (by simp [substPiece, heq])
    · have hmm : m' = m := by simpa [substPiece, heq] using hfp
      subst hmm
      exact ⟨hp, heq⟩

/-- Restoring a well-formed marker list over a rendered output replaces every
marker token by its target term and leaves the literal segments intact. -/
theorem restoreTerms_render :
    ∀ (ms : List Marker) (ps : List Piece),
      (∀ m ∈ ms, ∃ d, m.token = '«' :: (d ++ ['»']) ∧ guillFree d) →
      (∀ m ∈ ms, guillFree m.targetTerm) →
      ms.Pairwise (fun a b => a.token ≠ b.token) →
      (∀ s, Piece.seg s ∈ ps → guillFree s) →
      (∀ m : Marker, Piece.mark m ∈ ps → m ∈ ms) →
      restoreTerms (render ps) ms = renderRestored ps := by
  intro ms
  induction ms with
  | nil =>
    intro ps _ _ _ _ hmark
    exact render_eq_renderRestored_of_no_marks ps
      (fun m hm => by simpa using hmark m hm)
  | cons m0 rest ih =>
    intro ps htok htgt hpair hseg hmark
    obtain ⟨d0, hd0, hg0⟩ := htok m0 (List.mem_cons_self _ _)
    obtain ⟨hp0, hprest⟩ := List.pairwise_cons.mp hpair
    have hstep : replaceAll m0.token m0.targetTerm (render ps)
        = render (ps.map (substPiece m0.token m0.targetTerm)) := by
      rw [hd0]
      exact replaceAll_render d0 m0.targetTerm hg0 ps
        (fun m hm => htok m (hmark m hm)) hseg
    show restoreTerms (replaceAll m0.token m0.targetTerm (render ps)) rest = _
    rw [hstep]
    have hseg' : ∀ s, Piece.seg s ∈ ps.map (substPiece m0.token m0.targetTerm) → guillFree s := by
      intro s hs
      rcases seg_mem_map_substPiece hs with hs | rfl
      · exact hseg s hs
      · exact htgt m0 (List.mem_cons_self _ _)
    have hmark' : ∀ m : Marker, Piece.mark m ∈ ps.map (substPiece m0.token m0.targetTerm) →
        m ∈ rest := by
      intro m hm
      obtain ⟨hmem, hne⟩ := mark_mem_map_substPiece hm
      rcases List.mem_cons.mp (hmark m hmem) with rfl | hmem'
      · exact absurd rfl hne
      · exact hmem'
    rw [ih (ps.map (substPiece m0.token m0.targetTerm))
      (fun m hm => htok m (List.mem_cons_of_mem _ hm))
      (fun m hm => htgt m (List.mem_cons_of_mem _ hm))
      hprest hseg' hmark']
    apply renderRestored_substPiece
    intro m hm htokeq
    rcases List.mem_cons.mp (hmark m hm) with rfl | hmem'
    · rfl
    · exact absurd htokeq.symm (hp0 m hmem')

theorem markersOf_token_shape (entries : Glossary) (i : Nat) (m : Marker)
    (hm : m ∈ markersOf entries i) :
    ∃ d, m.token = '«' :: (d ++ ['»']) ∧ guillFree d := by
  rcases markersOf_token_ge entries i m hm with ⟨j, _, hj⟩
  exact ⟨natDigits j, by rw [hj]; rfl, natDigits_guillFree j⟩

theorem guillFree_append {a b : List Char} (ha : guillFree a) (hb : guillFree b) :
    guillFree (a ++ b) := by
  constructor
  · intro hm
    rcases List.mem_append.mp hm with hm | hm
    · exact ha.1 hm
    · exact hb.1 hm
  · intro hm
    rcases List.mem_append.mp hm with hm | hm
    · exact ha.2 hm
    · exact hb.2 hm

theorem guillFree_flatten : ∀ l : List (List Char), (∀ x ∈ l, guillFree x) →
    guillFree l.flatten := by
  intro l
  induction l with
  | nil => intro _; exact ⟨by simp, by simp⟩
  | cons x t ih =>
    intro h
    rw [List.flatten_cons]
    exact guillFree_append (h x (List.mem_cons_self _ _))
      (ih (fun y hy => h y (List.mem_cons_of_mem _ hy)))

theorem occursIn_flatten_of_mem {x : List Char} : ∀ l : List (List Char),
    x ∈ l → occursIn x l.flatten := by
  intro l
  induction l with
  | nil => intro h; simp at h
  | cons y t ih =>
    intro h
    rw [List.flatten_cons]
    rcases List.mem_cons.mp h with rfl | h
    · exact ⟨[], t.flatten, by simp⟩
    · exact occursIn_append_left y (ih h)

theorem not_occursIn_of_guillFree {u w : List Char} (hw : guillFree w) :
    ¬ occursIn ('«' :: u) w := by
  rintro ⟨a, b, rfl⟩
  exact hw.1 (by simp)

theorem occursIn_renderRestored_of_mark {m : Marker} {ps : List Piece}
    (h : Piece.mark m ∈ ps) : occursIn m.targetTerm (renderRestored ps) :=
  occursIn_flatten_of_mem _ (List.mem_map_of_mem pieceRestored h)

theorem guillFree_renderRestored {ps : List Piece}
    (hseg : ∀ s, Piece.seg s ∈ ps → guillFree s)
    (hmark : ∀ m : Marker, Piece.mark m ∈ ps → guillFree m.targetTerm) :
    guillFree (renderRestored ps) := by
  apply guillFree_flatten
  intro x hx
  rcases List.mem_map.mp hx with ⟨p, hp, rfl⟩
  cases p with
  | seg s => exact hseg s hp
  | mark m => exact hmark m hp

/-!
Part 2: the Gemini two-pass pipeline of `src/App.js`.

`AI_TRANSLATOR.translate` reads the stored API key, issues an Analyze
request, parses its body with `JSON.parse` (substituting a degraded default
context when parsing throws), builds a Translate prompt from the context,
issues a Translate request and returns `{ english, notes: [], context }`.
The network and `JSON.parse` are external primitives; one run's view of them
is supplied as an explicit environment.
-/

/-- JavaScript defaulting for possibly-absent strings (`a || b` in the
source): absent (`null`/`undefined`) and the empty string are falsy. -/
def jsOrS : Option String → String → String
  | none, d => d
  | some s, d => if s = "" then d else s

/-- JavaScript truthiness test of a possibly-absent string (`!x`): absent
and the empty string are falsy. -/
def jsFalsy : Option String → Bool
  | none => true
  | some s => s == ""

/-- Template-literal interpolation of a possibly-absent value: an absent
field prints as the text undefined.  JSON `null` prints as null but behaves
the same everywhere this value is branched on, so the model merges it with
the absent case. -/
def jsShow : Option String → String
  | none => "undefined"
  | some s => s

/-- One entry of the `characters` array of the analysis JSON; every field
may be absent. -/
structure CharacterEntry where
  chineseName : Option String
  englishName : Option String
  gender : Option String
  description : Option String
  nameType : Option String
deriving DecidableEq, Repr

/-- One entry of the `jargon` array of the analysis JSON. -/
structure JargonEntry where
  term : Option String
  meaning : Option String
deriving DecidableEq, Repr

/-- The object produced by `JSON.parse` on the Analyze response text
(`context` in the source).  Fields are optional because the JSON may omit
them; an absent field reads as `undefined`. -/
structure ParsedCtx where
  chapterTitle : Option String
  novelTitle : Option String
  characters : Option (List CharacterEntry)
  jargon : Option (List JargonEntry)
  insideJokes : Option (List String)
deriving DecidableEq, Repr

/-- One Gemini HTTP response as the client sees it: the HTTP success flag
and status, whether the body is valid JSON (`response.json()` throws
otherwise), the field `candidates?.[0]?.content?.parts?.[0]?.text` when the
response shape carries one, and the raw body text (which the source never
uses as a translation). -/
structure GeminiResponse where
  ok : Bool
  status : Nat
  bodyIsJson : Bool
  candidateText : Option String
  rawBody : String
deriving DecidableEq, Repr

/-- The environment of one `AI_TRANSLATOR.translate` run: the stored API key
(`localStorage.getItem` yields `null` or a string), the behaviour of the
`JSON.parse` primitive, and the responses the network returns for the
Analyze and the Translate request of this run. -/
structure Env where
  apiKey : Option String
  parse : String → Option ParsedCtx
  analysisResp : GeminiResponse
  translationResp : GeminiResponse

/-- The argument object of `AI_TRANSLATOR.translate`:
`{ text, tone, chapterTitle }`. -/
structure Req where
  text : String
  tone : Option String
  chapterTitle : Option String
deriving DecidableEq, Repr

/-- The success value of `AI_TRANSLATOR.translate`:
`{ english, notes, context }`. -/
structure TranslateOut where
  english : String
  notes : List String
  context : ParsedCtx
deriving DecidableEq, Repr

/-- Outcome of one run: the returned value or the thrown error message,
together with the number of HTTP requests issued during the run. -/
structure RunResult where
  result : Except String TranslateOut
  requests : Nat
deriving Repr

/-- The literal fallback text (a two-character brace pair) used when the
Analyze response carries no candidate text. -/
def emptyObjText : String := "\x7b\x7d"

/-- The argument of `JSON.parse` in the Analyze step:
`analysisResult.candidates?.[0]?.content?.parts?.[0]?.text || "..."` with
the brace-pair literal as default. -/
def analysisText (env : Env) : String :=
  jsOrS env.analysisResp.candidateText emptyObjText

/-- The fallback context substituted when `JSON.parse` throws: work title
from the caller-supplied chapter title or the sentinel, empty character,
jargon and theme arrays, and no `chapterTitle` field. -/
def defaultContext (chapterTitle : Option String) : ParsedCtx :=
  ⟨none, some (jsOrS chapterTitle "Unknown Novel"), some [], some [], some []⟩

/-- The context the Translate step works with: the parse result, or the
degraded default exactly when `JSON.parse` throws. -/
def analyzedContext (env : Env) (req : Req) : ParsedCtx :=
  match env.parse (analysisText env) with
  | some c => c
  | none => defaultContext req.chapterTitle

/-- One character line of the Translate prompt (the interpolations of the
template literal, with JavaScript falsy defaulting on the optional parts). -/
def charLine (c : CharacterEntry) : String :=
  jsShow c.chineseName ++ " → " ++ jsShow c.englishName ++ " (" ++
    jsOrS c.gender "unknown" ++ ") - " ++ jsOrS c.description "no description" ++
    " [" ++ jsOrS c.nameType "unknown" ++ "]"

/-- One jargon line of the Translate prompt. -/
def jargonLine (j : JargonEntry) : String :=
  "\"" ++ jsShow j.term ++ "\" = \"" ++ jsShow j.meaning ++ "\""

/-- The Translate-step prompt.  The source reads `.map` off
`context.characters` and `context.jargon` and `.join` off
`context.insideJokes`; each of those throws a `TypeError` when the field is
absent, which this model reports as `none`.  The fixed English instruction
prose of the template literal is abbreviated to its section labels; every
interpolation of context data is kept. -/
def buildTranslationPrompt (context : ParsedCtx) (tone : Option String)
    (text : String) : Option String :=
  match context.characters, context.jargon, context.insideJokes with
  | some chars, some jargon, some jokes =>
    some ("You are translating a novel chapter from Chinese to English.\n"
      ++ "Novel Context:\n- Title: " ++ jsShow context.novelTitle
      ++ "\n- Characters: " ++ String.intercalate ", " (chars.map charLine)
      ++ "\n- Important Terms: " ++ String.intercalate ", " (jargon.map jargonLine)
      ++ "\n- Recurring Themes: " ++ String.intercalate ", " jokes
      ++ "\nChapter title handling: (" ++ jsShow context.chapterTitle ++ ")"
      ++ "\nTone/style: " ++ jsOrS tone "match original"
      ++ "\nTranslate this text into natural, flowing English:\n\n" ++ text)
  | _, _, _ => none

/-- The message of the `TypeError` thrown when the prompt reads `.map` or
`.join` off an absent array field. -/
def typeErrorMsg : String := "Cannot read properties of undefined"

/-- The message of the error thrown by `response.json()` on a body that is
not valid JSON. -/
def jsonErrMsg : String := "Unexpected token in JSON"

/-- The rewrapping the `catch` block applies to every error thrown inside
the `try`: the text AI Translation failed followed by the original
message. -/
def wrapErr (msg : String) : String := "AI Translation failed: " ++ msg

/-- Embedding of `AI_TRANSLATOR.translate` (src/App.js lines 51-176).
Control flow in source order: the stored-key guard (thrown before the `try`,
so not rewrapped), the Analyze fetch and its `ok` and body checks, the
`JSON.parse` with degraded-default fallback, the Translate prompt
construction, the Translate fetch and its checks, and the final
`{ english, notes: [], context }` value whose translated text falls back to
the request text when the response carries no candidate text.  `requests`
counts the fetches issued; a network-level fetch failure is outside this
model (the environment always supplies a response). -/
def AI_TRANSLATOR.translate (env : Env) (req : Req) : RunResult :=
  if jsFalsy env.apiKey then
    ⟨Except.error "Set Gemini API key in Settings for AI translation.", 0⟩
  else if !env.analysisResp.ok then
    ⟨Except.error (wrapErr ("Analysis failed: " ++ toString env.analysisResp.status)), 1⟩
  else if !env.analysisResp.bodyIsJson then
    ⟨Except.error (wrapErr jsonErrMsg), 1⟩
  else
    match buildTranslationPrompt (analyzedContext env req) req.tone req.text with
    | none => ⟨Except.error (wrapErr typeErrorMsg), 1⟩
    | some _ =>
      if !env.translationResp.ok then
        ⟨Except.error (wrapErr ("Translation failed: " ++
          toString env.translationResp.status)), 2⟩
      else if !env.translationResp.bodyIsJson then
        ⟨Except.error (wrapErr jsonErrMsg), 2⟩
      else
        ⟨Except.ok ⟨jsOrS env.translationResp.candidateText req.text, [],
          analyzedContext env req⟩, 2⟩

/-- `AI_TRANSLATOR.translate` destructures its argument object and contains
no assignment to it, so a call returns with the request object unchanged;
this wrapper records the request as it stands after the call. -/
def translateCall (env : Env) (req : Req) : RunResult × Req :=
  (AI_TRANSLATOR.translate env req, req)

/-- A chapter row as held in component state. -/
structure Chapter where
  id : Nat
  title : Option String
deriving DecidableEq, Repr

/-- The slice of application state that `doTranslate` reads and writes:
source text and tone, the translation view state, the active chapter and
the chapter list, the write guards, and the externally persisted rows. -/
structure AppState where
  sourceZH : String
  tone : String
  translationEN : String
  notes : List String
  extractedContext : Option ParsedCtx
  status : String
  activeChapter : Option Chapter
  chapters : List Chapter
  hasSupabase : Bool
  hasUser : Bool
  savedTranslations : List (Nat × String × List String)
  dbChapters : List Chapter
deriving DecidableEq, Repr

/-- Upsert of the persisted translations row keyed by chapter id (the
select-then-update-or-insert of `saveTranslation`). -/
def upsertTranslation (rows : List (Nat × String × List String)) (cid : Nat)
    (english : String) (notesArr : List String) : List (Nat × String × List String) :=
  if rows.any (fun r => r.1 == cid) then
    rows.map (fun r => if r.1 == cid then (cid, english, notesArr) else r)
  else rows ++ [(cid, english, notesArr)]

/-- Embedding of `saveTranslation(english, notesArr)` (src/App.js lines
303-317): alert and return unless Supabase is configured, return unless a
chapter is active, alert and return unless a user is signed in; otherwise
upsert the row and set the status.  The notes default (a JavaScript `||`)
replaces only an absent argument, because an array, even empty, is truthy.
A database error (alert and return) is not modelled: the hosted call is
taken to succeed. -/
def saveTranslation (s : AppState) (english : String)
    (notesArr : Option (List String)) : AppState :=
  if !s.hasSupabase then s
  else
    match s.activeChapter with
    | none => s
    | some ch =>
      if !s.hasUser then s
      else
        { s with
          savedTranslations :=
            upsertTranslation s.savedTranslations ch.id english (notesArr.getD [])
          status := "Saved translation" }

/-- Embedding of `updateChapterTitle(chapterId, newTitle)` (src/App.js lines
331-341): alert and return unless Supabase is configured and a user is
signed in; otherwise persist the new title, refresh the chapter list and
the active chapter, and set the status.  A database error is not
modelled. -/
def updateChapterTitle (s : AppState) (chapterId : Nat) (newTitle : String) : AppState :=
  if !s.hasSupabase then s
  else if !s.hasUser then s
  else
    { s with
      dbChapters := s.dbChapters.map
        (fun c => if c.id == chapterId then { c with title := some newTitle } else c)
      chapters := s.chapters.map
        (fun c => if c.id == chapterId then { c with title := some newTitle } else c)
      activeChapter := s.activeChapter.map
        (fun c => if c.id == chapterId then { c with title := some newTitle } else c)
      status := "Updated chapter title" }

/-- The truthiness conjunction guarding the automatic chapter-title update
in `doTranslate`: a detected (non-empty) chapter title, strictly different
from the active chapter title, with an active chapter present. -/
def shouldUpdateTitle (ctx : ParsedCtx) (active : Option Chapter) : Bool :=
  !jsFalsy ctx.chapterTitle &&
    !(ctx.chapterTitle == active.bind Chapter.title) &&
    active.isSome

/-- Embedding of `doTranslate` (src/App.js lines 343-369): set the working
status, run the translator on the current source, tone and active chapter
title, and on success commit the result to view state, auto-update the
chapter title when one was detected, and persist the translation; on a
thrown error only the status changes (to the error message, or a fixed text
when the message is empty). -/
def doTranslate (env : Env) (s : AppState) : AppState :=
  let s1 := { s with status := "Analyzing and translating..." }
  let r := AI_TRANSLATOR.translate env
    ⟨s.sourceZH, some s.tone, s.activeChapter.bind Chapter.title⟩
  match r.result with
  | Except.error e => { s1 with status := if e = "" then "Translation failed" else e }
  | Except.ok out =>
    let s2 := { s1 with
      translationEN := out.english
      notes := out.notes
      extractedContext := some out.context }
    let s3 :=
      if shouldUpdateTitle out.context s2.activeChapter then
        match s2.activeChapter, out.context.chapterTitle with
        | some ch, some t => updateChapterTitle s2 ch.id t
        | _, _ => s2
      else s2
    let s4 := saveTranslation s3 out.english (some out.notes)
    { s4 with status := "Done" }

/-!
Claim theorems.
-/

theorem buildTranslationPrompt_defaultContext (ct tone : Option String) (text : String) :
    ∃ p, buildTranslationPrompt (defaultContext ct) tone text = some p :=
  ⟨_, rfl⟩

theorem buildTranslationPrompt_none_iff (ctx : ParsedCtx) (tone : Option String)
    (text : String) :
    buildTranslationPrompt ctx tone text = none ↔
      ctx.characters = none ∨ ctx.jargon = none ∨ ctx.insideJokes = none := by
  rcases ctx with ⟨ct, nt, chars, jargon, jokes⟩
  cases chars <;> cases jargon <;> cases jokes <;>
    simp [buildTranslationPrompt]

theorem translate_key_missing (env : Env) (req : Req)
    (hkey : jsFalsy env.apiKey = true) :
    AI_TRANSLATOR.translate env req =
      ⟨Except.error "Set Gemini API key in Settings for AI translation.", 0⟩ := by
  unfold AI_TRANSLATOR.translate
  rw [hkey]
  simp

theorem translate_analysis_fail (env : Env) (req : Req)
    (hkey : jsFalsy env.apiKey = false) (hok : env.analysisResp.ok = false) :
    AI_TRANSLATOR.translate env req =
      ⟨Except.error (wrapErr ("Analysis failed: " ++ toString env.analysisResp.status)), 1⟩ := by
  unfold AI_TRANSLATOR.translate
  rw [hkey, hok]
  simp

theorem translate_after_analysis (env : Env) (req : Req) (p : String)
    (hkey : jsFalsy env.apiKey = false) (hok : env.analysisResp.ok = true)
    (hjson : env.analysisResp.bodyIsJson = true)
    (hp : buildTranslationPrompt (analyzedContext env req) req.tone req.text = some p) :
    (AI_TRANSLATOR.translate env req).requests = 2 ∧
    (env.translationResp.ok = true → env.translationResp.bodyIsJson = true →
      (AI_TRANSLATOR.translate env req).result = Except.ok
        ⟨jsOrS env.translationResp.candidateText req.text, [], analyzedContext env req⟩) ∧
    (env.translationResp.ok = false →
      (AI_TRANSLATOR.translate env req).result = Except.error
        (wrapErr ("Translation failed: " ++ toString env.translationResp.status))) := by
  unfold AI_TRANSLATOR.translate
  rw [hkey, hok, hjson, hp]
  cases hto : env.translationResp.ok <;> cases htj : env.translationResp.bodyIsJson <;>
    simp [hto, htj]

theorem translate_prompt_throws (env : Env) (req : Req)
    (hkey : jsFalsy env.apiKey = false) (hok : env.analysisResp.ok = true)
    (hjson : env.analysisResp.bodyIsJson = true)
    (hp : buildTranslationPrompt (analyzedContext env req) req.tone req.text = none) :
    AI_TRANSLATOR.translate env req = ⟨Except.error (wrapErr typeErrorMsg), 1⟩ := by
  unfold AI_TRANSLATOR.translate
  rw [hkey, hok, hjson, hp]
  simp

/-- A successful Gemini response carrying candidate text `t` (test data). -/
def okResp (t : Option String) : GeminiResponse := ⟨true, 200, true, t, "raw-body"⟩

/-- A failed (non-success status) Gemini response (test data). -/
def badResp (code : Nat) : GeminiResponse := ⟨false, code, true, none, "raw-body"⟩

/-- A `JSON.parse` behaviour that throws on every input (test data). -/
def parseNone : String → Option ParsedCtx := fun _ => none

/-- A fully populated parsed context (test data). -/
def fullCtx : ParsedCtx :=
  ⟨some "The First Chapter", some "My Novel", some [], some [], some []⟩

/-- A `JSON.parse` behaviour that always succeeds with `fullCtx`
(test data). -/
def parseFull : String → Option ParsedCtx := fun _ => some fullCtx

/-- C1: when the Analyze response body is not valid structured data —
`JSON.parse` of the analysis text throws — the pipeline still proceeds
unconditionally to the Translate step (both requests of the run are
issued) using the degraded default context: empty character, terminology
and theme arrays, and a work title taken from the caller-supplied chapter
title or the sentinel; the parse failure never surfaces to the caller — a
successful Translate response makes the whole run return normally,
carrying that default context. -/
theorem analyze_parse_failure_recovered (env : Env) (req : Req)
    (hkey : jsFalsy env.apiKey = false)
    (hok : env.analysisResp.ok = true)
    (hjson : env.analysisResp.bodyIsJson = true)
    (hparse : env.parse (analysisText env) = none) :
    (AI_TRANSLATOR.translate env req).requests = 2 ∧
    analyzedContext env req =
      ⟨none, some (jsOrS req.chapterTitle "Unknown Novel"), some [], some [], some []⟩ ∧
    (env.translationResp.ok = true → env.translationResp.bodyIsJson = true →
      (AI_TRANSLATOR.translate env req).result = Except.ok
        ⟨jsOrS env.translationResp.candidateText req.text, [],
          defaultContext req.chapterTitle⟩) := by
  have hctx : analyzedContext env req = defaultContext req.chapterTitle := by
    unfold analyzedContext
    rw [hparse]
  obtain ⟨p, hp0⟩ := buildTranslationPrompt_defaultContext req.chapterTitle req.tone req.text
  have hp : buildTranslationPrompt (analyzedContext env req) req.tone req.text = some p := by
    rw [hctx]; exact hp0
  obtain ⟨hreq, hokcase, _⟩ := translate_after_analysis env req p hkey hok hjson hp
  refine ⟨hreq, by rw [hctx]; rfl, ?_⟩
  intro hto htj
  rw [hokcase hto htj, hctx]

/-- Witness for C1 at a concrete run: key set, Analyze succeeds with a
non-JSON body, Translate succeeds. -/
theorem analyze_parse_failure_recovered_witness :
    (jsFalsy (some "key") = false ∧
     (okResp (some "not json")).ok = true ∧
     (okResp (some "not json")).bodyIsJson = true ∧
     parseNone (analysisText ⟨some "key", parseNone, okResp (some "not json"),
       okResp (some "Hello.")⟩) = none) ∧
    ((AI_TRANSLATOR.translate ⟨some "key", parseNone, okResp (some "not json"),
        okResp (some "Hello.")⟩ ⟨"中文", none, some "Ch 1"⟩).requests = 2 ∧
     analyzedContext ⟨some "key", parseNone, okResp (some "not json"),
        okResp (some "Hello.")⟩ ⟨"中文", none, some "Ch 1"⟩ =
       ⟨none, some (jsOrS (some "Ch 1") "Unknown Novel"), some [], some [], some []⟩ ∧
     ((okResp (some "Hello.")).ok = true → (okResp (some "Hello.")).bodyIsJson = true →
      (AI_TRANSLATOR.translate ⟨some "key", parseNone, okResp (some "not json"),
          okResp (some "Hello.")⟩ ⟨"中文", none, some "Ch 1"⟩).result = Except.ok
        ⟨jsOrS (okResp (some "Hello.")).candidateText "中文", [],
          defaultContext (some "Ch 1")⟩)) :=
  ⟨⟨rfl, rfl, rfl, rfl⟩,
   analyze_parse_failure_recovered _ _ rfl rfl rfl rfl⟩

/-- C3: calling the provider variant with no credential configured fails
fast with the configuration error, raised before any network request: the
run returns the configuration message and issues zero HTTP requests. -/
theorem missing_key_fails_fast (env : Env) (req : Req)
    (hkey : jsFalsy env.apiKey = true) :
    (AI_TRANSLATOR.translate env req).result =
      Except.error "Set Gemini API key in Settings for AI translation." ∧
    (AI_TRANSLATOR.translate env req).requests = 0 := by
  rw [translate_key_missing env req hkey]
  exact ⟨rfl, rfl⟩

/-- Witness for C3 at a concrete run with no stored key. -/
theorem missing_key_fails_fast_witness :
    jsFalsy (none : Option String) = true ∧
    ((AI_TRANSLATOR.translate ⟨none, parseFull, okResp (some "ctx"), okResp (some "Hi")⟩
        ⟨"text", none, none⟩).result =
      Except.error "Set Gemini API key in Settings for AI translation." ∧
     (AI_TRANSLATOR.translate ⟨none, parseFull, okResp (some "ctx"), okResp (some "Hi")⟩
        ⟨"text", none, none⟩).requests = 0) :=
  ⟨rfl, missing_key_fails_fast _ _ rfl⟩

/-- C4: a non-success HTTP status in either request aborts the whole
pipeline immediately and surfaces as a single error; nothing is retried —
an Analyze failure leaves exactly one request issued, and a Translate
failure (reached when the Analyze step succeeded and the prompt was built)
leaves exactly two. -/
theorem request_failure_aborts_pipeline (env : Env) (req : Req) (p : String)
    (hkey : jsFalsy env.apiKey = false) :
    (env.analysisResp.ok = false →
      (AI_TRANSLATOR.translate env req).result = Except.error
        (wrapErr ("Analysis failed: " ++ toString env.analysisResp.status)) ∧
      (AI_TRANSLATOR.translate env req).requests = 1) ∧
    (env.analysisResp.ok = true → env.analysisResp.bodyIsJson = true →
     buildTranslationPrompt (analyzedContext env req) req.tone req.text = some p →
     env.translationResp.ok = false →
      (AI_TRANSLATOR.translate env req).result = Except.error
        (wrapErr ("Translation failed: " ++ toString env.translationResp.status)) ∧
      (AI_TRANSLATOR.translate env req).requests = 2) := by
  constructor
  · intro hok
    rw [translate_analysis_fail env req hkey hok]
    exact ⟨rfl, rfl⟩
  · intro hok hjson hp hto
    obtain ⟨hreq, _, hfail⟩ := translate_after_analysis env req p hkey hok hjson hp
    exact ⟨hfail hto, hreq⟩

/-- Witness for C4 at two concrete runs: one whose Analyze request fails
with status 500, one whose Translate request fails with status 503. -/
theorem request_failure_aborts_pipeline_witness :
    (jsFalsy (some "key") = false ∧
     (badResp 500).ok = false ∧
     ((AI_TRANSLATOR.translate ⟨some "key", parseFull, badResp 500, okResp (some "Hi")⟩
         ⟨"text", none, none⟩).result =
        Except.error (wrapErr ("Analysis failed: " ++ toString (badResp 500).status)) ∧
      (AI_TRANSLATOR.translate ⟨some "key", parseFull, badResp 500, okResp (some "Hi")⟩
         ⟨"text", none, none⟩).requests = 1)) ∧
    ((badResp 503).ok = false ∧
     ((AI_TRANSLATOR.translate ⟨some "key", parseFull, okResp (some "ctx"), badResp 503⟩
         ⟨"text", none, none⟩).result =
        Except.error (wrapErr ("Translation failed: " ++ toString (badResp 503).status)) ∧
      (AI_TRANSLATOR.translate ⟨some "key", parseFull, okResp (some "ctx"), badResp 503⟩
         ⟨"text", none, none⟩).requests = 2)) :=
  ⟨⟨rfl, rfl,
    (request_failure_aborts_pipeline ⟨some "key", parseFull, badResp 500, okResp (some "Hi")⟩
      ⟨"text", none, none⟩ "" rfl).1 rfl⟩,
   ⟨rfl,
    (request_failure_aborts_pipeline ⟨some "key", parseFull, okResp (some "ctx"), badResp 503⟩
      ⟨"text", none, none⟩ _ rfl).2 rfl rfl rfl rfl⟩⟩

/-- C6: every successful pipeline run terminates with a value of the shape
targetText, empty notes, extracted context: the notes field of a successful
run is always the empty list, and the context produced by the Analyze step
is included in the result. -/
theorem success_shape (env : Env) (req : Req) (p : String)
    (hkey : jsFalsy env.apiKey = false) (hok : env.analysisResp.ok = true)
    (hjson : env.analysisResp.bodyIsJson = true)
    (hp : buildTranslationPrompt (analyzedContext env req) req.tone req.text = some p)
    (hto : env.translationResp.ok = true)
    (htj : env.translationResp.bodyIsJson = true) :
    (AI_TRANSLATOR.translate env req).result = Except.ok
      ⟨jsOrS env.translationResp.candidateText req.text, [], analyzedContext env req⟩ :=
  (translate_after_analysis env req p hkey hok hjson hp).2.1 hto htj

/-- Witness for C6 at a concrete successful run. -/
theorem success_shape_witness :
    (jsFalsy (some "key") = false ∧
     (okResp (some "ctx")).ok = true ∧ (okResp (some "ctx")).bodyIsJson = true ∧
     (okResp (some "Hello.")).ok = true ∧ (okResp (some "Hello.")).bodyIsJson = true) ∧
    (AI_TRANSLATOR.translate ⟨some "key", parseFull, okResp (some "ctx"),
        okResp (some "Hello.")⟩ ⟨"source", some "casual", none⟩).result = Except.ok
      ⟨jsOrS (okResp (some "Hello.")).candidateText "source", [],
        analyzedContext ⟨some "key", parseFull, okResp (some "ctx"),
          okResp (some "Hello.")⟩ ⟨"source", some "casual", none⟩⟩ :=
  ⟨⟨rfl, rfl, rfl, rfl, rfl⟩,
   success_shape _ _ _ rfl rfl rfl rfl rfl rfl⟩

/-- A `JSON.parse` behaviour that parses exactly the brace-pair literal, to
an object with every field absent (test data). -/
def parseEmptyObj : String → Option ParsedCtx :=
  fun s => if s = emptyObjText then some ⟨none, none, none, none, none⟩ else none

/-- C10: when the Analyze response body parses successfully as JSON but the
parsed object lacks one of the characters, jargon or insideJokes arrays
(including the no-candidate-text case, where the literal brace pair is
parsed to an object with no fields), the pipeline does not substitute the
degraded default context: the Translate-prompt construction throws, the
whole run aborts with an error, and the second request is never issued.
The default context is substituted only when `JSON.parse` itself throws. -/
theorem parsed_context_missing_fields_aborts (env : Env) (req : Req) (c : ParsedCtx)
    (hkey : jsFalsy env.apiKey = false) (hok : env.analysisResp.ok = true)
    (hjson : env.analysisResp.bodyIsJson = true)
    (hparse : env.parse (analysisText env) = some c)
    (hmiss : c.characters = none ∨ c.jargon = none ∨ c.insideJokes = none) :
    (AI_TRANSLATOR.translate env req).result = Except.error (wrapErr typeErrorMsg) ∧
    (AI_TRANSLATOR.translate env req).requests = 1 ∧
    analyzedContext env req = c ∧
    (env.analysisResp.candidateText = none → analysisText env = emptyObjText) := by
  have hctx : analyzedContext env req = c := by
    unfold analyzedContext
    rw [hparse]
  have hp : buildTranslationPrompt (analyzedContext env req) req.tone req.text = none := by
    rw [hctx]
    exact (buildTranslationPrompt_none_iff c req.tone req.text).mpr hmiss
  rw [translate_prompt_throws env req hkey hok hjson hp]
  refine ⟨rfl, rfl, hctx, ?_⟩
  intro hcand
  unfold analysisText
  rw [hcand]
  rfl

/-- Witness for C10 at a concrete run whose Analyze response carries no
candidate text: the brace-pair literal parses to an empty object, the
prompt construction throws, and the run aborts after one request. -/
theorem parsed_context_missing_fields_aborts_witness :
    (jsFalsy (some "key") = false ∧
     (okResp none).ok = true ∧ (okResp none).bodyIsJson = true ∧
     parseEmptyObj (analysisText ⟨some "key", parseEmptyObj, okResp none,
       okResp (some "Hi")⟩) = some ⟨none, none, none, none, none⟩ ∧
     (ParsedCtx.characters ⟨none, none, none, none, none⟩ = none ∨
      ParsedCtx.jargon ⟨none, none, none, none, none⟩ = none ∨
      ParsedCtx.insideJokes ⟨none, none, none, none, none⟩ = none)) ∧
    ((AI_TRANSLATOR.translate ⟨some "key", parseEmptyObj, okResp none,
        okResp (some "Hi")⟩ ⟨"text", none, none⟩).result =
       Except.error (wrapErr typeErrorMsg) ∧
     (AI_TRANSLATOR.translate ⟨some "key", parseEmptyObj, okResp none,
        okResp (some "Hi")⟩ ⟨"text", none, none⟩).requests = 1 ∧
     analyzedContext ⟨some "key", parseEmptyObj, okResp none,
        okResp (some "Hi")⟩ ⟨"text", none, none⟩ = ⟨none, none, none, none, none⟩ ∧
     ((okResp none).candidateText = none →
       analysisText ⟨some "key", parseEmptyObj, okResp none,
         okResp (some "Hi")⟩ = emptyObjText)) :=
  ⟨⟨rfl, rfl, rfl, rfl, Or.inl rfl⟩,
   parsed_context_missing_fields_aborts _ _ _ rfl rfl rfl rfl (Or.inl rfl)⟩

/-- Environment of the C2 counterexample: a successful Translate response
whose shape carries no candidate-text field and whose raw body is a
distinct marker string (test data). -/
def c2Env : Env :=
  ⟨some "key", parseFull, okResp (some "ctx"), ⟨true, 200, true, none, "RAW-BODY"⟩⟩

/-- Request of the C2 counterexample (test data). -/
def c2Req : Req := ⟨"SOURCE-TEXT", none, none⟩

/-- C2 counterexample: at a concrete run whose Translate response lacks the
expected target-text field, the variant returns the request's source text
as the translation — not the raw response body, as the claim asserts: the
returned text differs from the raw body. -/
theorem provider_fallback_counterexample :
    c2Env.translationResp.candidateText = none ∧
    (AI_TRANSLATOR.translate c2Env c2Req).result =
      Except.ok ⟨"SOURCE-TEXT", [], fullCtx⟩ ∧
    c2Env.translationResp.rawBody = "RAW-BODY" ∧
    ("SOURCE-TEXT" : String) ≠ "RAW-BODY" :=
  ⟨rfl, rfl, rfl, by decide⟩

/-- C2 (amended): when a provider response cannot be parsed as expected —
the expected target-text field is absent from the response shape (or
empty, which JavaScript treats the same) — the variant falls back to
treating the request's source text, not the raw response body, as the
translated text, with empty notes, rather than signaling an error. -/
theorem provider_fallback_request_text (env : Env) (req : Req) (p : String)
    (hkey : jsFalsy env.apiKey = false) (hok : env.analysisResp.ok = true)
    (hjson : env.analysisResp.bodyIsJson = true)
    (hp : buildTranslationPrompt (analyzedContext env req) req.tone req.text = some p)
    (hto : env.translationResp.ok = true)
    (htj : env.translationResp.bodyIsJson = true)
    (hcand : jsFalsy env.translationResp.candidateText = true) :
    (AI_TRANSLATOR.translate env req).result =
      Except.ok ⟨req.text, [], analyzedContext env req⟩ := by
  have h := (translate_after_analysis env req p hkey hok hjson hp).2.1 hto htj
  have hfb : jsOrS env.translationResp.candidateText req.text = req.text := by
    cases hc : env.translationResp.candidateText with
    | none => rfl
    | some s =>
      have hs' : s = "" := by
        have h0 := hcand
        rw [hc] at h0
        simpa [jsFalsy] using h0
      simp [jsOrS, hs']
  rw [h, hfb]

/-- Witness for C2 (amended) at the counterexample run itself. -/
theorem provider_fallback_request_text_witness :
    (jsFalsy c2Env.apiKey = false ∧
     c2Env.analysisResp.ok = true ∧ c2Env.analysisResp.bodyIsJson = true ∧
     c2Env.translationResp.ok = true ∧ c2Env.translationResp.bodyIsJson = true ∧
     jsFalsy c2Env.translationResp.candidateText = true) ∧
    (AI_TRANSLATOR.translate c2Env c2Req).result =
      Except.ok ⟨c2Req.text, [], analyzedContext c2Env c2Req⟩ :=
  ⟨⟨rfl, rfl, rfl, rfl, rfl, rfl⟩,
   provider_fallback_request_text c2Env c2Req _ rfl rfl rfl rfl rfl rfl rfl⟩

/-- C5: a run of the translation operation that aborts with an error
(the configuration error and the provider errors included) commits no
partial results: the caller-visible translation text, notes and extracted
context are unchanged, nothing is persisted (neither the translations rows
nor the chapter rows), and only the status message changes. -/
theorem error_commits_nothing (env : Env) (s : AppState) (e : String)
    (herr : (AI_TRANSLATOR.translate env
        ⟨s.sourceZH, some s.tone, s.activeChapter.bind Chapter.title⟩).result =
      Except.error e) :
    (doTranslate env s).translationEN = s.translationEN ∧
    (doTranslate env s).notes = s.notes ∧
    (doTranslate env s).extractedContext = s.extractedContext ∧
    (doTranslate env s).savedTranslations = s.savedTranslations ∧
    (doTranslate env s).dbChapters = s.dbChapters ∧
    (doTranslate env s).chapters = s.chapters ∧
    (doTranslate env s).status = (if e = "" then "Translation failed" else e) := by
  simp only [doTranslate]
  rw [herr]
  exact ⟨rfl, rfl, rfl, rfl, rfl, rfl, rfl⟩

/-- Application state of the C5 witness (test data). -/
def c5State : AppState :=
  ⟨"src", "casual", "old-EN", ["note-1"], none, "", some ⟨7, some "T"⟩,
    [⟨7, some "T"⟩], true, true, [(7, "old-EN", [])], [⟨7, some "T"⟩]⟩

/-- Witness for C5 at a concrete run that aborts with the configuration
error (no key stored). -/
theorem error_commits_nothing_witness :
    (AI_TRANSLATOR.translate ⟨none, parseFull, okResp (some "ctx"), okResp (some "Hi")⟩
        ⟨c5State.sourceZH, some c5State.tone,
          c5State.activeChapter.bind Chapter.title⟩).result =
      Except.error "Set Gemini API key in Settings for AI translation." ∧
    ((doTranslate ⟨none, parseFull, okResp (some "ctx"), okResp (some "Hi")⟩
        c5State).translationEN = c5State.translationEN ∧
     (doTranslate ⟨none, parseFull, okResp (some "ctx"), okResp (some "Hi")⟩
        c5State).notes = c5State.notes ∧
     (doTranslate ⟨none, parseFull, okResp (some "ctx"), okResp (some "Hi")⟩
        c5State).extractedContext = c5State.extractedContext ∧
     (doTranslate ⟨none, parseFull, okResp (some "ctx"), okResp (some "Hi")⟩
        c5State).savedTranslations = c5State.savedTranslations ∧
     (doTranslate ⟨none, parseFull, okResp (some "ctx"), okResp (some "Hi")⟩
        c5State).dbChapters = c5State.dbChapters ∧
     (doTranslate ⟨none, parseFull, okResp (some "ctx"), okResp (some "Hi")⟩
        c5State).chapters = c5State.chapters ∧
     (doTranslate ⟨none, parseFull, okResp (some "ctx"), okResp (some "Hi")⟩
        c5State).status =
       (if ("Set Gemini API key in Settings for AI translation." : String) = ""
        then "Translation failed"
        else "Set Gemini API key in Settings for AI translation.")) :=
  ⟨rfl, error_commits_nothing _ _ _ rfl⟩

/-- C9: every provider variant is safe to call with an empty glossary and
does not mutate its input request: a call of the translate operation
returns with the request object exactly as passed in, and the glossary
engine applied with an empty glossary is the identity — mapping returns
the text unchanged with no markers, and restoring with no markers is a
no-op. -/
theorem adapter_contract :
    (∀ (env : Env) (req : Req), (translateCall env req).2 = req) ∧
    (∀ T : List Char, mapTerms T [] = (T, [])) ∧
    (∀ out : List Char, restoreTerms out [] = out) :=
  ⟨fun _ _ => rfl, fun _ => rfl, fun _ => rfl⟩

/-- C7: for every non-empty glossary and every text containing zero
occurrences of any key of the glossary, `mapTerms` returns a mapped text
equal to the input text: the text passes through unchanged when no
glossary term matches. -/
theorem mapTerms_id_of_no_occurrence (g : Glossary) (T : List Char)
    (_hg : g ≠ []) (hnone : ∀ p ∈ g, ¬ occursIn p.1 T) :
    (mapTerms T g).1 = T := by
  unfold mapTerms
  exact mapTermsGo_fst_of_no_occ (keptEntries g) 0 T
    (fun p hp => hnone p (keptEntries_subset hp))

/-- Witness for C7 at a concrete glossary and text with no occurrence. -/
theorem mapTerms_id_of_no_occurrence_witness :
    (([(['张'], ['Z'])] : Glossary) ≠ [] ∧
     ∀ p ∈ ([(['张'], ['Z'])] : Glossary), ¬ occursIn p.1 ['李', '四']) ∧
    (mapTerms ['李', '四'] [(['张'], ['Z'])]).1 = ['李', '四'] :=
  ⟨⟨by decide, by decide⟩, mapTerms_id_of_no_occurrence _ _ (by decide) (by decide)⟩

/-- Glossary of the C8 counterexample: the first target term is itself the
text of the second marker token (test data). -/
def c8Glossary : Glossary := [(['a'], ['«', '1', '»']), (['b'], ['X'])]

/-- Text of the C8 counterexample (test data). -/
def c8Text : List Char := ['a', 'b']

/-- First marker produced by the C8 counterexample mapping (test data). -/
def c8M0 : Marker := ⟨['«', '0', '»'], ['a'], ['«', '1', '»']⟩

/-- Second marker produced by the C8 counterexample mapping (test data). -/
def c8M1 : Marker := ⟨['«', '1', '»'], ['b'], ['X']⟩

/-- Provider output of the C8 counterexample: the mapped text itself, so
every marker token occurs verbatim and unmodified (test data). -/
def c8Output : List Char := ['«', '0', '»', '«', '1', '»']

/-- C8 counterexample: for a glossary whose first target term is itself a
marker token, an output containing every marker token of the matching
`mapTerms` call verbatim restores to a text that does not contain the first
marker's target term — the claim as stated is false at this input. -/
theorem restoreTerms_counterexample :
    mapTerms c8Text c8Glossary = (c8Output, [c8M0, c8M1]) ∧
    occursIn c8M0.token c8Output ∧ occursIn c8M1.token c8Output ∧
    restoreTerms c8Output [c8M0, c8M1] = ['X', 'X'] ∧
    ¬ occursIn c8M0.targetTerm (restoreTerms c8Output [c8M0, c8M1]) := by
  decide

/-- C8 (amended): if the provider output decomposes into guillemet-free
literal segments and marker tokens of the matching `mapTerms` call, with
every marker token present, and the glossary's target terms are
guillemet-free, then restoration replaces exactly the tokens — the result
is the same decomposition with each token replaced by its target term —
so it contains every marker's target term and no residual marker token,
and restoration never touches the unrelated segments. -/
theorem restoreTerms_complete (g : Glossary) (T : List Char) (ps : List Piece)
    (hTgt : ∀ p ∈ g, guillFree p.2)
    (hseg : ∀ s, Piece.seg s ∈ ps → guillFree s)
    (hmem : ∀ m : Marker, Piece.mark m ∈ ps → m ∈ (mapTerms T g).2)
    (hall : ∀ m ∈ (mapTerms T g).2, Piece.mark m ∈ ps) :
    restoreTerms (render ps) (mapTerms T g).2 = renderRestored ps ∧
    (∀ m ∈ (mapTerms T g).2,
      occursIn m.targetTerm (restoreTerms (render ps) (mapTerms T g).2)) ∧
    (∀ m ∈ (mapTerms T g).2,
      ¬ occursIn m.token (restoreTerms (render ps) (mapTerms T g).2)) := by
  have hms : (mapTerms T g).2 = markersOf (keptEntries g) 0 := by
    unfold mapTerms
    exact mapTermsGo_snd _ 0 T
  have htok : ∀ m ∈ (mapTerms T g).2,
      ∃ d, m.token = '«' :: (d ++ ['»']) ∧ guillFree d := by
    intro m hm
    rw [hms] at hm
    exact markersOf_token_shape _ 0 m hm
  have htgt : ∀ m ∈ (mapTerms T g).2, guillFree m.targetTerm := by
    intro m hm
    rw [hms] at hm
    exact hTgt _ (keptEntries_subset (markersOf_source_target _ 0 m hm))
  have hpair : (mapTerms T g).2.Pairwise (fun a b => a.token ≠ b.token) := by
    rw [hms]
    exact markersOf_pairwise_token _ 0
  have hmain := restoreTerms_render (mapTerms T g).2 ps htok htgt hpair hseg hmem
  refine ⟨hmain, ?_, ?_⟩
  · intro m hm
    rw [hmain]
    exact occursIn_renderRestored_of_mark (hall m hm)
  · intro m hm
    rw [hmain]
    obtain ⟨d, hshape, _⟩ := htok m hm
    rw [hshape]
    exact not_occursIn_of_guillFree
      (guillFree_renderRestored hseg (fun m' hm' => htgt m' (hmem m' hm')))

/-- Glossary of the round-trip witness (the spec's own example). -/
def rtGloss : Glossary :=
  [("张三".toList, "Zhang San".toList), ("李四".toList, "Li Si".toList)]

/-- Text of the round-trip witness (the spec's own example). -/
def rtText : List Char := "张三与李四同行".toList

/-- First marker of the round-trip witness (test data). -/
def rtM0 : Marker := ⟨token 0, "张三".toList, "Zhang San".toList⟩

/-- Second marker of the round-trip witness (test data). -/
def rtM1 : Marker := ⟨token 1, "李四".toList, "Li Si".toList⟩

/-- Provider output of the round-trip witness, as pieces: both tokens
echoed verbatim around the untouched connecting text (test data). -/
def rtPieces : List Piece :=
  [Piece.mark rtM0, Piece.seg "与".toList, Piece.mark rtM1, Piece.seg "同行".toList]

/-- Witness for C8 (amended) at the spec's round-trip example. -/
theorem restoreTerms_complete_witness :
    ((∀ p ∈ rtGloss, guillFree p.2) ∧
     (∀ s, Piece.seg s ∈ rtPieces → guillFree s) ∧
     (∀ m : Marker, Piece.mark m ∈ rtPieces → m ∈ (mapTerms rtText rtGloss).2) ∧
     (∀ m ∈ (mapTerms rtText rtGloss).2, Piece.mark m ∈ rtPieces)) ∧
    (restoreTerms (render rtPieces) (mapTerms rtText rtGloss).2 = renderRestored rtPieces ∧
     (∀ m ∈ (mapTerms rtText rtGloss).2,
       occursIn m.targetTerm (restoreTerms (render rtPieces) (mapTerms rtText rtGloss).2)) ∧
     (∀ m ∈ (mapTerms rtText rtGloss).2,
       ¬ occursIn m.token (restoreTerms (render rtPieces) (mapTerms rtText rtGloss).2))) := by
  have hseg : ∀ s, Piece.seg s ∈ rtPieces → guillFree s := by
    intro s hs
    simp only [rtPieces, List.mem_cons, List.not_mem_nil, or_false] at hs
    rcases hs with h | h | h | h
    · exact absurd h (by simp)
    · rcases Piece.seg.inj h with rfl
      decide
    · exact absurd h (by simp)
    · rcases Piece.seg.inj h with rfl
      decide
  have hmem : ∀ m : Marker, Piece.mark m ∈ rtPieces → m ∈ (mapTerms rtText rtGloss).2 := by
    intro m hm
    simp only [rtPieces, List.mem_cons, List.not_mem_nil, or_false] at hm
    rcases hm with h | h | h | h
    · rcases Piece.mark.inj h with rfl
      decide
    · exact absurd h (by simp)
    · rcases Piece.mark.inj h with rfl
      decide
    · exact absurd h (by simp)
  exact ⟨⟨by decide, hseg, hmem, by decide⟩,
    restoreTerms_complete rtGloss rtText rtPieces (by decide) hseg hmem (by decide)⟩
